import Mathlib

/-!
Verification of the github-metrics contribution aggregation and report code.

The definitions below are a shallow embedding of the two source files:

* `api.py` / `get_user_stats` (streak scans, top-repository ranking, the
  result dictionary),
* `cli.py` / `get_month_graph` (glyph encoding of one month),
* `cli.py` / `print_single_report` (the month-line visibility test),
* `cli.py` / `create_report` (year-list normalisation, the per-year loops
  in text mode and in JSON mode, removal of the daily calendar from the
  JSON records).

Machine integers of the source are modelled by `Nat` / `Int` (counts are
non-negative, years are `int`s), Python lists by `List`, Python dicts with
fixed string keys by association lists `List (String × JVal)`, and a call
that can raise by `Except String`.
-/

/-- A calendar date as produced by `datetime.strptime(day["date"], "%Y-%m-%d")`;
only the fields the code reads are kept. -/
structure Date where
  year : Nat
  month : Nat
  day : Nat
deriving DecidableEq

/-- One entry of the flattened `all_days` list in `get_user_stats`:
the parsed date together with `day["contributionCount"]`. -/
structure ContributionDay where
  date : Date
  contributionCount : Nat
deriving DecidableEq

/-- One entry of `commitContributionsByRepository`, after the projection
performed in `get_user_stats`: `nameWithOwner`, `isPrivate`,
`contributions.totalCount`. -/
structure RepoContribution where
  name : String
  isPrivate : Bool
  commits : Nat
deriving DecidableEq

/-! ### Streak computation (api.py, get_user_stats, lines 145-161) -/

/-- One iteration of the `for day in all_days` loop computing `max_streak`:
`temp_streak` is the first component, `max_streak` the second. -/
def streakStep (st : Nat × Nat) (d : ContributionDay) : Nat × Nat :=
  if 0 < d.contributionCount then (st.1 + 1, max st.2 (st.1 + 1)) else (0, st.2)

/-- The whole `max_streak` loop: a left fold of `streakStep` starting from
`temp_streak = 0`, `max_streak = 0`. -/
def streakScan (days : List ContributionDay) : Nat × Nat :=
  List.foldl streakStep (0, 0) days

/-- `max_streak` as computed by `get_user_stats`. -/
def maxStreak (days : List ContributionDay) : Nat :=
  (streakScan days).2

/-- The `for day in reversed(all_days)` loop of `get_user_stats`: count
leading days with positive count, stop at the first day with count 0. -/
def countLeadingPos : List ContributionDay → Nat
  | [] => 0
  | d :: rest => if 0 < d.contributionCount then countLeadingPos rest + 1 else 0

/-- `current_streak` as computed by `get_user_stats`. -/
def currentStreak (days : List ContributionDay) : Nat :=
  countLeadingPos days.reverse

/-- Reference recursion used in proofs: the same step function applied by
structural recursion from the head; on `l.reverse` it coincides with
`streakScan l`. -/
def runsAux : List ContributionDay → Nat × Nat
  | [] => (0, 0)
  | d :: rest => streakStep (runsAux rest) d

/-- Boolean form of "the day has at least one contribution". -/
def posb (d : ContributionDay) : Bool :=
  decide (0 < d.contributionCount)

/-- All days of the list have a positive contribution count. -/
def AllPos (l : List ContributionDay) : Prop :=
  ∀ d ∈ l, 0 < d.contributionCount

instance (l : List ContributionDay) : Decidable (AllPos l) :=
  List.decidableBAll _ l

/-! ### Top-repository ranking (api.py, get_user_stats, lines 163-169) -/

/-- The ordering used by `sorted(repos, key=..., reverse=True)`:
`a` may come before `b` iff `a`'s commit count is at least `b`'s. -/
def repoGE (a b : RepoContribution) : Prop :=
  b.commits ≤ a.commits

instance : DecidableRel repoGE :=
  fun a b => Nat.decLe b.commits a.commits

instance : IsTotal RepoContribution repoGE :=
  ⟨fun a b => Nat.le_total b.commits a.commits⟩

instance : IsTrans RepoContribution repoGE :=
  ⟨fun _ _ _ h1 h2 => Nat.le_trans h2 h1⟩

/-- Python's `sorted(repos, key=lambda r: r.commits, reverse=True)`.
`sorted` is a stable sort; a stable sort with respect to the total
preorder "commit count descending" is unique, and insertion sort realises
it (each element is inserted after all earlier elements with a commit
count greater than or equal to its own). -/
def sortReposDesc (repos : List RepoContribution) : List RepoContribution :=
  List.insertionSort repoGE repos

/-- `top_repos = sorted(...)[:10]` from `get_user_stats`. -/
def topRepositories (repos : List RepoContribution) : List RepoContribution :=
  (sortReposDesc repos).take 10

/-! ### Month graph (cli.py, get_month_graph, lines 17-40) -/

/-- The inner `intensity` function of `get_month_graph`. -/
def intensity (count : Nat) : Char :=
  if count = 0 then '░'
  else if count ≤ 3 then '▒'
  else if count ≤ 6 then '▓'
  else '█'

/-- The `counts` list of `get_month_graph`: contribution counts of the days
whose parsed date has the given month, in day order.  The month argument is
an `Int` because the Python parameter is an arbitrary `int`. -/
def monthCounts (daily : List ContributionDay) (month : Int) : List Nat :=
  (daily.filter (fun d => (d.date.month : Int) == month)).map
    (fun d => d.contributionCount)

/-- Python's `str.ljust`: pad on the right with `c` up to width `w`
(no change when the string is already at least `w` long). -/
def ljustChars (s : List Char) (w : Nat) (c : Char) : List Char :=
  s ++ List.replicate (w - s.length) c

/-- `get_month_graph`: the glyph string (as a list of characters) and the
month total.  Mirrors the source: an empty `counts` yields 31 empty glyphs
and total 0, otherwise one glyph per count, left-justified to width 31
with the space character. -/
def getMonthGraph (daily : List ContributionDay) (month : Int) : List Char × Nat :=
  let counts := monthCounts daily month
  if counts.isEmpty then (List.replicate 31 '░', 0)
  else (ljustChars (counts.map intensity) 31 ' ', counts.sum)

/-! ### Month-line visibility (cli.py, print_single_report, lines 183-186) -/

/-- The test `if total > 0 or month_idx <= datetime.now().month` guarding a
month line of the single-year report.  Note that it uses the current
calendar month of the machine running the report, not anything about the
reported year. -/
def monthLineShown (total monthIdx nowMonth : Nat) : Bool :=
  decide (0 < total) || decide (monthIdx ≤ nowMonth)

/-- Whether month `month` of `reportYear` lies in the future of the current
date `(nowYear, nowMonth)`.  This is the notion the specification uses when
it says only "future" months may be suppressed. -/
def monthIsFuture (reportYear : Int) (month : Nat) (nowYear : Int) (nowMonth : Nat) : Bool :=
  decide (nowYear < reportYear) ||
    (decide (reportYear = nowYear) && decide (nowMonth < month))

/-! ### The result dictionary of get_user_stats (api.py, lines 171-190)
and the JSON projection (cli.py, lines 230-237) -/

/-- JSON-like values, enough to model the dictionaries the code builds. -/
inductive JVal where
  | num : Int → JVal
  | str : String → JVal
  | bool : Bool → JVal
  | arr : List JVal → JVal
  | obj : List (String × JVal) → JVal

/-- The per-repository dictionary built in `get_user_stats`. -/
def encodeRepo (r : RepoContribution) : JVal :=
  JVal.obj
    [("name", JVal.str r.name),
     ("private", JVal.bool r.isPrivate),
     ("commits", JVal.num r.commits)]

/-- One raw day dictionary, kept in `daily_contributions`. -/
def encodeDay (d : ContributionDay) : JVal :=
  JVal.obj
    [("date",
      JVal.obj
        [("year", JVal.num d.date.year),
         ("month", JVal.num d.date.month),
         ("day", JVal.num d.date.day)]),
     ("contributionCount", JVal.num d.contributionCount)]

/-- The payload `get_user_stats` reads out of the GraphQL response:
the pre-computed scalar totals, the calendar weeks and the repository
contribution list (at most 100 entries upstream; no bound is needed here). -/
structure Payload where
  totalContributions : Nat
  totalCommitContributions : Nat
  totalIssueContributions : Nat
  totalPullRequestContributions : Nat
  totalPullRequestReviewContributions : Nat
  totalRepositoriesWithContributedCommits : Nat
  weeks : List (List ContributionDay)
  repos : List RepoContribution

/-- The `all_days` flattening loop of `get_user_stats`. -/
def allDays (p : Payload) : List ContributionDay :=
  p.weeks.flatten

/-- The dictionary returned by `get_user_stats`, as an association list in
the order the source writes its keys. -/
def getUserStatsDict (year : Int) (p : Payload) : List (String × JVal) :=
  [("year", JVal.num year),
   ("total_contributions", JVal.num p.totalContributions),
   ("commits", JVal.num p.totalCommitContributions),
   ("issues", JVal.num p.totalIssueContributions),
   ("pull_requests", JVal.num p.totalPullRequestContributions),
   ("reviews", JVal.num p.totalPullRequestReviewContributions),
   ("repositories_contributed", JVal.num p.totalRepositoriesWithContributedCommits),
   ("current_streak", JVal.num (currentStreak (allDays p))),
   ("max_streak", JVal.num (maxStreak (allDays p))),
   ("top_repositories", JVal.arr ((topRepositories p.repos).map encodeRepo)),
   ("daily_contributions", JVal.arr ((allDays p).map encodeDay))]

/-- `stats.pop("daily_contributions", None)`: remove a key from a dict. -/
def popKey (k : String) (d : List (String × JVal)) : List (String × JVal) :=
  d.filter (fun kv => kv.1 != k)

/-- The record appended to `results` in the JSON branch of `create_report`. -/
def machineRecord (year : Int) (p : Payload) : List (String × JVal) :=
  popKey "daily_contributions" (getUserStatsDict year p)

/-! ### The per-year loops of create_report (cli.py, lines 230-247) -/

/-- The text-mode loop of `create_report`: each year's fetch is wrapped in
`try/except`; successes are appended to `all_stats`, failures produce an
error message keyed by the year.  Both lists keep the year order. -/
def runTextYears (fetch : Int → Except String (List (String × JVal))) :
    List Int → List (List (String × JVal)) × List (Int × String)
  | [] => ([], [])
  | y :: ys =>
    let rest := runTextYears fetch ys
    match fetch y with
    | Except.ok s => (s :: rest.1, rest.2)
    | Except.error e => (rest.1, (y, e) :: rest.2)

/-- The JSON-mode loop of `create_report`: there is no per-year handler, so
the first raised error propagates and the remaining years are never
fetched. -/
def runJsonYears (fetch : Int → Except String (List (String × JVal))) :
    List Int → Except String (List (List (String × JVal)))
  | [] => Except.ok []
  | y :: ys =>
    match fetch y with
    | Except.ok s => (runJsonYears fetch ys).map (fun l => s :: l)
    | Except.error e => Except.error e

/-! ### Year-list normalisation (cli.py, create_report, lines 224-228) -/

/-- Insert a year into a strictly increasing list, keeping it strictly
increasing; used to model Python's `sorted(set(...))`. -/
def insertYear (x : Int) : List Int → List Int
  | [] => [x]
  | y :: ys =>
    if x < y then x :: y :: ys
    else if x = y then y :: ys
    else y :: insertYear x ys

/-- Models `sorted(set(l))`: the strictly increasing enumeration of the
distinct elements of `l` (characterised below by `pairwise_sortedSet` and
`mem_sortedSet`). -/
def sortedSet (l : List Int) : List Int :=
  l.foldr insertYear []

/-- `all_years = sorted(set(list(years) + list(year)))`, with the fallback
`[datetime.now().year]` when no year was supplied. -/
def combineYears (positional flags : List Int) (nowYear : Int) : List Int :=
  sortedSet (if (positional ++ flags).isEmpty then [nowYear] else positional ++ flags)

/-! ### Concrete inputs used by witnesses and counterexamples -/

/-- Days with counts 1,0,2,3,0,0,5 (the hand-built sequence from the spec). -/
def days0 : List ContributionDay :=
  [⟨⟨2024, 1, 1⟩, 1⟩, ⟨⟨2024, 1, 2⟩, 0⟩, ⟨⟨2024, 1, 3⟩, 2⟩, ⟨⟨2024, 1, 4⟩, 3⟩,
   ⟨⟨2024, 1, 5⟩, 0⟩, ⟨⟨2024, 1, 6⟩, 0⟩, ⟨⟨2024, 1, 7⟩, 5⟩]

/-- Days with counts 1,0,2,3 (the current-streak example from the spec). -/
def days1 : List ContributionDay :=
  [⟨⟨2024, 1, 1⟩, 1⟩, ⟨⟨2024, 1, 2⟩, 0⟩, ⟨⟨2024, 1, 3⟩, 2⟩, ⟨⟨2024, 1, 4⟩, 3⟩]

/-- A single January day with one contribution. -/
def dayJan1 : ContributionDay :=
  ⟨⟨2024, 1, 1⟩, 1⟩

/-- A fetch function that fails for 2023 and succeeds for every other year. -/
def fetchBoom : Int → Except String (List (String × JVal)) :=
  fun y => if y = 2023 then Except.error "boom" else Except.ok []

/-! ## Theorems -/

theorem streakScan_append (l : List ContributionDay) (d : ContributionDay) :
    streakScan (l ++ [d]) = streakStep (streakScan l) d := by
  simp [streakScan, List.foldl_append]

theorem streakScan_eq_runsAux (l : List ContributionDay) :
    streakScan l = runsAux l.reverse := by
  induction l using List.reverseRecOn with
  | nil => rfl
  | append_singleton l d ih =>
    rw [streakScan_append, ih, List.reverse_append]
    rfl

theorem runsAux_fst_le_snd (m : List ContributionDay) :
    (runsAux m).1 ≤ (runsAux m).2 := by
  induction m with
  | nil => exact Nat.le_refl 0
  | cons d m ih =>
    by_cases h : 0 < d.contributionCount
    · simp only [runsAux, streakStep, if_pos h]
      exact Nat.le_max_right _ _
    · simp only [runsAux, streakStep, if_neg h]
      exact Nat.zero_le _

theorem runsAux_fst (m : List ContributionDay) :
    (runsAux m).1 = (m.takeWhile posb).length := by
  induction m with
  | nil => rfl
  | cons d m ih =>
    by_cases h : 0 < d.contributionCount
    · have hp : posb d = true := by simp [posb, h]
      simp [runsAux, streakStep, h, List.takeWhile_cons_of_pos hp, ih]
    · have hp : ¬ posb d = true := by simp [posb, h]
      simp [runsAux, streakStep, h, List.takeWhile_cons_of_neg hp]

theorem countLeadingPos_eq (m : List ContributionDay) :
    countLeadingPos m = (m.takeWhile posb).length := by
  induction m with
  | nil => rfl
  | cons d m ih =>
    by_cases h : 0 < d.contributionCount
    · have hp : posb d = true := by simp [posb, h]
      simp [countLeadingPos, h, List.takeWhile_cons_of_pos hp, ih]
    · have hp : ¬ posb d = true := by simp [posb, h]
      simp [countLeadingPos, h, List.takeWhile_cons_of_neg hp]

theorem length_le_length_takeWhile {t m : List ContributionDay}
    (h : t <+: m) (hpos : AllPos t) : t.length ≤ (m.takeWhile posb).length := by
  induction t generalizing m with
  | nil => exact Nat.zero_le _
  | cons a t ih =>
    cases m with
    | nil =>
      have := h.length_le
      simp at this
    | cons b m =>
      obtain ⟨rfl, htm⟩ := List.cons_prefix_cons.mp h
      have hpa : posb a = true := by
        simp only [posb, decide_eq_true_eq]
        exact hpos a (List.mem_cons_self a t)
      rw [ List.takeWhile_cons_of_pos hpa]
      simp only [List.length_cons]
      exact Nat.succ_le_succ
        (ih htm (fun d hd => hpos d (List.mem_cons_of_mem a hd)))

theorem takeWhile_posb_pre (m : List ContributionDay) :
    m.takeWhile posb <+: m :=
  ⟨m.dropWhile posb, List.takeWhile_append_dropWhile posb m⟩

theorem allPos_takeWhile (m : List ContributionDay) :
    AllPos (m.takeWhile posb) := by
  intro d hd
  have := List.mem_takeWhile_imp hd
  simpa [posb] using this

theorem infix_length_le_runsAux {m t : List ContributionDay}
    (h : t <:+: m) (hpos : AllPos t) : t.length ≤ (runsAux m).2 := by
  induction m generalizing t with
  | nil =>
    have ht : t = [] := List.infix_nil.mp h
    simp [ht, runsAux]
  | cons d m ih =>
    rcases List.infix_cons_iff.mp h with hpre | hinf
    · have h1 : t.length ≤ ((d :: m).takeWhile posb).length :=
        length_le_length_takeWhile hpre hpos
      have h2 : (runsAux (d :: m)).1 = ((d :: m).takeWhile posb).length :=
        runsAux_fst _
      have h3 := runsAux_fst_le_snd (d :: m)
      omega
    · have h1 := ih hinf hpos
      have h2 : (runsAux m).2 ≤ (runsAux (d :: m)).2 := by
        by_cases hc : 0 < d.contributionCount
        · simp only [runsAux, streakStep, if_pos hc]
          exact Nat.le_max_left _ _
        · simp only [runsAux, streakStep, if_neg hc]
          exact Nat.le_refl _
      omega

theorem runsAux_snd_exists (m : List ContributionDay) :
    ∃ t, t <:+: m ∧ AllPos t ∧ t.length = (runsAux m).2 := by
  induction m with
  | nil =>
    exact ⟨[], List.infix_rfl, fun d hd => absurd hd (List.not_mem_nil d), rfl⟩
  | cons d m ih =>
    obtain ⟨t, ht, hpos, hlen⟩ := ih
    by_cases hc : 0 < d.contributionCount
    · rcases Nat.le_total ((runsAux m).1 + 1) ((runsAux m).2) with hle | hge
      · refine ⟨t, List.infix_cons ht, hpos, ?_⟩
        simp [runsAux, streakStep, hc, Nat.max_eq_left hle, hlen]
      · refine ⟨(d :: m).takeWhile posb, ?_, allPos_takeWhile _, ?_⟩
        · exact List.IsPrefix.isInfix (takeWhile_posb_pre _)
        · have h1 : ((d :: m).takeWhile posb).length = (runsAux (d :: m)).1 :=
            (runsAux_fst _).symm
          have h2 : (runsAux (d :: m)).1 = (runsAux m).1 + 1 := by
            simp [runsAux, streakStep, hc]
          have h3 : (runsAux (d :: m)).2 = (runsAux m).1 + 1 := by
            simp [runsAux, streakStep, hc, Nat.max_eq_right hge]
          omega
    · refine ⟨t, List.infix_cons ht, hpos, ?_⟩
      simp [runsAux, streakStep, hc, hlen]

/-- C1: for every sequence of daily contributions (the flattened `all_days`
list), the `max_streak` computed by `get_user_stats` is the length of the
longest contiguous run of days with positive count: some all-positive
contiguous segment of the sequence has exactly that length, and no
all-positive contiguous segment is longer.  For the empty sequence both
parts force the value 0. -/
theorem maxStreak_longest_run (days : List ContributionDay) :
    (∃ t, t <:+: days ∧ AllPos t ∧ t.length = maxStreak days) ∧
    (∀ t, t <:+: days → AllPos t → t.length ≤ maxStreak days) := by
  have hmax : maxStreak days = (runsAux days.reverse).2 := by
    simp [maxStreak, streakScan_eq_runsAux]
  constructor
  · obtain ⟨t, ht, hpos, hlen⟩ := runsAux_snd_exists days.reverse
    refine ⟨t.reverse, ?_, ?_, ?_⟩
    · refine List.reverse_infix.mp ?_
      simpa [List.reverse_reverse] using ht
    · intro d hd
      exact hpos d (List.mem_reverse.mp hd)
    · simpa [List.length_reverse, hmax] using hlen
  · intro t ht hpos
    have ht' : t.reverse <:+: days.reverse := List.reverse_infix.mpr ht
    have hp' : AllPos t.reverse := fun d hd => hpos d (List.mem_reverse.mp hd)
    have := infix_length_le_runsAux ht' hp'
    simpa [List.length_reverse, hmax] using this

/-- Witness for C1 on the spec's hand-built sequence 1,0,2,3,0,0,5:
the computed `max_streak` is 2, and the theorem's bound applied to the
concrete run of days 3-4 shows 2 is attained. -/
theorem maxStreak_longest_run_witness :
    maxStreak days0 = 2 ∧ 2 ≤ maxStreak days0 := by
  refine ⟨by decide, ?_⟩
  exact (maxStreak_longest_run days0).2
    [⟨⟨2024, 1, 3⟩, 2⟩, ⟨⟨2024, 1, 4⟩, 3⟩]
    ⟨[⟨⟨2024, 1, 1⟩, 1⟩, ⟨⟨2024, 1, 2⟩, 0⟩],
     [⟨⟨2024, 1, 5⟩, 0⟩, ⟨⟨2024, 1, 6⟩, 0⟩, ⟨⟨2024, 1, 7⟩, 5⟩], rfl⟩
    (by decide)

/-- C2: for every sequence of daily contributions, the `current_streak`
computed by `get_user_stats` counts the trailing positive days before the
first zero met scanning backward from the end: it equals the length of the
longest all-positive suffix of the sequence (and, syntactically, the
length of the positive prelude of the reversed sequence).  For the empty
sequence it is 0. -/
theorem currentStreak_trailing_run (days : List ContributionDay) :
    currentStreak days = (days.reverse.takeWhile posb).length ∧
    (∃ t, t <:+ days ∧ AllPos t ∧ t.length = currentStreak days) ∧
    (∀ t, t <:+ days → AllPos t → t.length ≤ currentStreak days) := by
  refine ⟨countLeadingPos_eq days.reverse, ?_, ?_⟩
  · refine ⟨(days.reverse.takeWhile posb).reverse, ?_, ?_, ?_⟩
    · refine List.reverse_prefix.mp ?_
      simpa [List.reverse_reverse] using takeWhile_posb_pre days.reverse
    · intro d hd
      exact allPos_takeWhile days.reverse d (List.mem_reverse.mp hd)
    · simp [List.length_reverse, currentStreak, countLeadingPos_eq]
  · intro t ht hpos
    have h1 : t.reverse <+: days.reverse := List.reverse_prefix.mpr ht
    have h2 := length_le_length_takeWhile h1
      (fun d hd => hpos d (List.mem_reverse.mp hd))
    simpa [List.length_reverse, currentStreak, countLeadingPos_eq] using h2

/-- Witness for C2 on the spec's sequence 1,0,2,3: the computed
`current_streak` is 2, attained by the concrete trailing run of days 3-4. -/
theorem currentStreak_trailing_run_witness :
    currentStreak days1 = 2 ∧ 2 ≤ currentStreak days1 := by
  refine ⟨by decide, ?_⟩
  exact (currentStreak_trailing_run days1).2.2
    [⟨⟨2024, 1, 3⟩, 2⟩, ⟨⟨2024, 1, 4⟩, 3⟩]
    ⟨[⟨⟨2024, 1, 1⟩, 1⟩, ⟨⟨2024, 1, 2⟩, 0⟩], rfl⟩
    (by decide)

/-- C3: for every sequence of daily contributions the streaks computed by
`get_user_stats` satisfy `current_streak ≤ max_streak`, and both are at
most the length of the sequence. -/
theorem streak_bounds (days : List ContributionDay) :
    currentStreak days ≤ maxStreak days ∧
    maxStreak days ≤ days.length ∧
    currentStreak days ≤ days.length := by
  have hcur : currentStreak days = (days.reverse.takeWhile posb).length :=
    countLeadingPos_eq days.reverse
  have hmax : maxStreak days = (runsAux days.reverse).2 := by
    simp [maxStreak, streakScan_eq_runsAux]
  have h1 : (days.reverse.takeWhile posb).length ≤ (runsAux days.reverse).2 := by
    refine infix_length_le_runsAux ?_ (allPos_takeWhile _)
    exact List.IsPrefix.isInfix (takeWhile_posb_pre days.reverse)
  have h2 : (runsAux days.reverse).2 ≤ days.length := by
    obtain ⟨t, ht, _, hlen⟩ := runsAux_snd_exists days.reverse
    have h3 := ht.length_le
    simp only [List.length_reverse] at h3
    omega
  omega

theorem filter_orderedInsert_commits (k : Nat) (x : RepoContribution)
    (l : List RepoContribution) :
    (List.orderedInsert repoGE x l).filter (fun r => r.commits == k) =
      if x.commits = k then x :: l.filter (fun r => r.commits == k)
      else l.filter (fun r => r.commits == k) := by
  induction l with
  | nil =>
    by_cases h : x.commits = k
    · have hb : (x.commits == k) = true := by simp [h]
      simp [List.orderedInsert, List.filter_cons, h, hb]
    · have hb : (x.commits == k) = false := by simp [h]
      simp [List.orderedInsert, List.filter_cons, h, hb]
  | cons b t ih =>
    by_cases hr : repoGE x b
    · rw [ List.orderedInsert_of_le repoGE t hr]
      by_cases h : x.commits = k
      · have hb : (x.commits == k) = true := by simp [h]
        simp [List.filter_cons, h, hb]
      · have hb : (x.commits == k) = false := by simp [h]
        simp [List.filter_cons, h, hb]
    · have hlt : x.commits < b.commits := Nat.lt_of_not_le hr
      simp only [List.orderedInsert, if_neg hr]
      by_cases hb : b.commits = k
      · have hx : ¬ x.commits = k := by omega
        have hbb : (b.commits == k) = true := by simp [hb]
        have hxb : (x.commits == k) = false := by simp [hx]
        simp [List.filter_cons, hbb, hx, hxb, ih]
      · have hbb : (b.commits == k) = false := by simp [hb]
        by_cases h : x.commits = k
        · have hxb : (x.commits == k) = true := by simp [h]
          simp [List.filter_cons, hbb, h, hxb, ih]
        · have hxb : (x.commits == k) = false := by simp [h]
          simp [List.filter_cons, hbb, h, hxb, ih]

theorem filter_sortReposDesc (k : Nat) (repos : List RepoContribution) :
    (sortReposDesc repos).filter (fun r => r.commits == k) =
      repos.filter (fun r => r.commits == k) := by
  induction repos with
  | nil => rfl
  | cons x t ih =>
    have ih' : (List.insertionSort repoGE t).filter (fun r => r.commits == k) =
        t.filter (fun r => r.commits == k) := ih
    show (List.orderedInsert repoGE x (List.insertionSort repoGE t)).filter _ = _
    rw [filter_orderedInsert_commits]
    by_cases h : x.commits = k
    · have hb : (x.commits == k) = true := by simp [h]
      simp [List.filter_cons, h, hb, ih']
    · have hb : (x.commits == k) = false := by simp [h]
      simp [List.filter_cons, h, hb, ih']

/-- C4: the ranking built by `get_user_stats` is the input repository list
stably sorted by commit count in descending order, truncated to 10
entries: the sorted list is a permutation of the input, it is ordered by
`repoGE` (descending commit counts), for every commit count the entries
having it appear exactly as in the input (stability), `top_repositories`
is its 10-element prelude, and its length is `min 10` the input length. -/
theorem topRepositories_spec (repos : List RepoContribution) :
    (sortReposDesc repos).Perm repos ∧
    (sortReposDesc repos).Sorted repoGE ∧
    (∀ k, (sortReposDesc repos).filter (fun r => r.commits == k) =
      repos.filter (fun r => r.commits == k)) ∧
    topRepositories repos = (sortReposDesc repos).take 10 ∧
    (topRepositories repos).length = min 10 repos.length := by
  refine ⟨ List.perm_insertionSort repoGE repos,
    List.sorted_insertionSort repoGE repos,
    fun k => filter_sortReposDesc k repos, rfl, ?_⟩
  have hlen : (sortReposDesc repos).length = repos.length :=
    ( List.perm_insertionSort repoGE repos).length_eq
  simp [topRepositories, List.length_take, hlen]

/-- Counterexample for C5.  The claim says every position of the glyph
string past the last matching day is the "empty" glyph and that the string
always has length 31.  On a list with one matching January day of count 1
the position after the glyph holds a space character, not the empty glyph
(the source pads with `ljust(31, " ")`), and on a list with 32 matching
days the string has length 32. -/
theorem getMonthGraph_claim_cex :
    (((getMonthGraph [dayJan1] 1).1.getD 1 'X') == '░') = false ∧
    (getMonthGraph [dayJan1] 1).1 = '▒' :: List.replicate 30 ' ' ∧
    ((getMonthGraph (List.replicate 32 dayJan1) 1).1.length == 31) = false := by
  refine ⟨by decide, by decide, ?_⟩
  decide

/-- C5 as amended: the glyph string returned by `month_graph` has length
`max 31 n` where `n` is the number of matching days (hence exactly 31
whenever at most 31 days match, as in any single-year calendar); the total
is the sum of the matching counts; a month with no matching days yields 31
empty glyphs with total 0; position `i < n` holds the intensity glyph of
the `i`-th matching day; and when at least one day matches, the positions
from `n` up to 30 are padded with the space character. -/
theorem getMonthGraph_amended (daily : List ContributionDay) (month : Int) :
    (getMonthGraph daily month).1.length = max 31 (monthCounts daily month).length ∧
    (getMonthGraph daily month).2 = (monthCounts daily month).sum ∧
    ((monthCounts daily month).isEmpty = true →
      getMonthGraph daily month = (List.replicate 31 '░', 0)) ∧
    (∀ i, i < (monthCounts daily month).length →
      (getMonthGraph daily month).1[i]? =
        ((monthCounts daily month)[i]?).map intensity) ∧
    ((monthCounts daily month).isEmpty = false →
      ∀ i, (monthCounts daily month).length ≤ i → i < 31 →
        (getMonthGraph daily month).1[i]? = some ' ') := by
  by_cases he : (monthCounts daily month).isEmpty
  · have hnil : monthCounts daily month = [] := List.isEmpty_iff.mp he
    refine ⟨?_, ?_, fun _ => ?_, ?_, ?_⟩
    · simp [getMonthGraph, hnil]
    · simp [getMonthGraph, hnil]
    · simp [getMonthGraph, hnil]
    · intro i hi
      rw [hnil] at hi
      exact absurd hi (by simp)
    · intro hf
      rw [hnil] at hf
      simp at hf
  · have hg : getMonthGraph daily month =
        (ljustChars ((monthCounts daily month).map intensity) 31 ' ',
         (monthCounts daily month).sum) := by
      simp [getMonthGraph, he]
    refine ⟨?_, ?_, fun ht => ?_, ?_, ?_⟩
    · rw [hg]
      simp only [ljustChars, List.length_append, List.length_map,
        List.length_replicate]
      omega
    · rw [hg]
    · rw [ht] at he
      simp at he
    · intro i hi
      rw [hg]
      simp only [ljustChars]
      rw [ List.getElem?_append_left (by simpa using hi)]
      simp [List.getElem?_map]
    · intro _ i hlo hhi
      rw [hg]
      simp only [ljustChars]
      rw [ List.getElem?_append_right (by simpa using hlo)]
      rw [ List.getElem?_replicate]
      rw [if_pos (by simp; omega)]

/-- Witness for the amended C5 at a concrete input: one matching January
day of count 1; the glyph at position 0 is the light glyph and position 1
is the space padding. -/
theorem getMonthGraph_amended_witness :
    (getMonthGraph [dayJan1] 1).1[0]? = some '▒' ∧
    (getMonthGraph [dayJan1] 1).1[1]? = some ' ' := by
  constructor
  · have h := (getMonthGraph_amended [dayJan1] 1).2.2.2.1 0 (by decide)
    rw [h]
    decide
  · exact (getMonthGraph_amended [dayJan1] 1).2.2.2.2 (by decide) 1
      (by decide) (by decide)

/-- C10: for any daily list whose (parseable) dates have months in 1..12,
`get_month_graph` called with a month outside 1..12 matches no day, so it
returns the 31 empty glyphs with total 0 - the same value a valid month
with no matching days produces - and raises no error. -/
theorem getMonthGraph_invalid_month (daily : List ContributionDay) (month : Int)
    (hdays : ∀ d ∈ daily, 1 ≤ d.date.month ∧ d.date.month ≤ 12)
    (hm : month < 1 ∨ 12 < month) :
    getMonthGraph daily month = (List.replicate 31 '░', 0) := by
  have hc : monthCounts daily month = [] := by
    have : daily.filter (fun d => (d.date.month : Int) == month) = [] := by
      rw [ List.filter_eq_nil_iff]
      intro d hd
      have h1 := hdays d hd
      simp only [beq_iff_eq]
      omega
    simp [monthCounts, this]
  simp [getMonthGraph, hc]

/-- Witness for C10: a one-day January list queried with month -1 (an
integer outside 1..12) yields the all-empty graph with total 0. -/
theorem getMonthGraph_invalid_month_witness :
    getMonthGraph [dayJan1] (-1) = (List.replicate 31 '░', 0) :=
  getMonthGraph_invalid_month [dayJan1] (-1) (by decide) (by decide)

/-- Counterexample for C6.  In the JSON-output mode of `create_report`
there is no per-year handler: with a fetch that fails for 2023 and
succeeds for 2024, the run over [2023, 2024] produces only the error -
the successfully fetchable year 2024 appears nowhere in the output. -/
theorem runJsonYears_abort_cex :
    runJsonYears fetchBoom [2023, 2024] = Except.error "boom" ∧
    fetchBoom 2024 = Except.ok [] := by
  constructor <;> rfl

/-- C6 as amended: in the text-report mode each year is processed inside
its own handler, so the collected stats are exactly the successful fetches
of all requested years (in order) and the reported errors are exactly the
failing years with their messages (in order) - a failure for one year
cannot affect any other year.  In the JSON-output mode, by contrast, a
failing year aborts the loop: an error at the head of the year list makes
the whole run return that error. -/
theorem perYear_isolation_amended
    (fetch : Int → Except String (List (String × JVal))) (years : List Int) :
    (runTextYears fetch years).1 =
      years.filterMap (fun y => (fetch y).toOption) ∧
    (runTextYears fetch years).2 =
      years.filterMap (fun y =>
        match fetch y with
        | Except.ok _ => none
        | Except.error e => some (y, e)) ∧
    (∀ y ys e, fetch y = Except.error e →
      runJsonYears fetch (y :: ys) = Except.error e) := by
  refine ⟨?_, ?_, ?_⟩
  · induction years with
    | nil => rfl
    | cons y ys ih =>
      cases hy : fetch y <;>
        simp [runTextYears, hy, ih, List.filterMap_cons, Except.toOption]
  · induction years with
    | nil => rfl
    | cons y ys ih =>
      cases hy : fetch y <;>
        simp [runTextYears, hy, ih, List.filterMap_cons]
  · intro y ys e he
    simp [runJsonYears, he]

/-- Witness for the amended C6: with the concrete fetch failing only for
2023, the text-mode run over [2023, 2024] still collects the 2024 result
and reports the 2023 error, while the JSON-mode run aborts with it. -/
theorem perYear_isolation_amended_witness :
    (runTextYears fetchBoom [2023, 2024]).1 = [[]] ∧
    (runTextYears fetchBoom [2023, 2024]).2 = [(2023, "boom")] ∧
    runJsonYears fetchBoom [2023, 2024] = Except.error "boom" := by
  have h := perYear_isolation_amended fetchBoom [2023, 2024]
  refine ⟨?_, ?_, h.2.2 2023 [2024] "boom" rfl⟩
  · rw [h.1]
    rfl
  · rw [h.2.1]
    rfl

/-- Counterexample for C7.  The claim's "equivalently" part says an empty
past month of the reported year is never suppressed.  Reporting the year
2023 while the current date is October 2025, the November line (total 0,
month index 11, current month 10) is suppressed by the source condition,
yet November 2023 is not a future month. -/
theorem monthLine_past_suppressed_cex :
    monthLineShown 0 11 10 = false ∧
    monthIsFuture 2023 11 2025 10 = false := by
  decide

/-- C7 as amended: a month line of the single-year report is suppressed
exactly when its total is 0 and its index exceeds the current calendar
month of the machine - the reported year plays no role.  Consequently for
a report of the current year the suppressed lines are exactly the empty
future months, but for a report of an earlier year the empty months after
the current calendar month are suppressed as well, although they are past. -/
theorem monthLineShown_amended (total monthIdx nowMonth : Nat) (nowYear : Int) :
    monthLineShown total monthIdx nowMonth =
      !(decide (total = 0) && decide (nowMonth < monthIdx)) ∧
    monthIsFuture nowYear monthIdx nowYear nowMonth =
      decide (nowMonth < monthIdx) := by
  constructor
  · simp only [monthLineShown]
    by_cases h1 : 0 < total
    · have h2 : ¬ total = 0 := by omega
      simp [h1, h2]
    · have h2 : total = 0 := by omega
      by_cases h3 : monthIdx ≤ nowMonth
      · have h4 : ¬ nowMonth < monthIdx := by omega
        simp [h1, h2, h3, h4]
      · have h4 : nowMonth < monthIdx := by omega
        simp [h1, h2, h3, h4]
  · simp [monthIsFuture]

/-- C8: for every year and payload, the record placed into the JSON output
of `create_report` carries exactly the scalar keys and `top_repositories`,
in source order, and in particular does not contain the
`daily_contributions` key, which `stats.pop` removed. -/
theorem machineRecord_keys (year : Int) (p : Payload) :
    (machineRecord year p).map Prod.fst =
      ["year", "total_contributions", "commits", "issues", "pull_requests",
       "reviews", "repositories_contributed", "current_streak", "max_streak",
       "top_repositories"] ∧
    ((machineRecord year p).map Prod.fst).contains "daily_contributions" = false := by
  constructor <;> rfl

theorem mem_insertYear {a x : Int} {l : List Int} :
    a ∈ insertYear x l ↔ a = x ∨ a ∈ l := by
  induction l with
  | nil => simp [insertYear]
  | cons y ys ih =>
    by_cases h1 : x < y
    · simp [insertYear, h1]
    · by_cases h2 : x = y
      · subst h2
        simp only [insertYear, if_neg h1, if_pos rfl]
        constructor
        · intro h
          exact Or.inr h
        · intro h
          rcases h with h | h
          · simp [h]
          · exact h
      · simp only [insertYear, if_neg h1, if_neg h2, List.mem_cons, ih]
        tauto

theorem pairwise_insertYear {x : Int} {l : List Int}
    (h : l.Pairwise (· < ·)) : (insertYear x l).Pairwise (· < ·) := by
  induction l with
  | nil => simp [insertYear]
  | cons y ys ih =>
    by_cases h1 : x < y
    · rw [insertYear, if_pos h1]
      refine List.Pairwise.cons ?_ h
      intro a ha
      rcases List.mem_cons.mp ha with rfl | ha
      · exact h1
      · exact lt_trans h1 ( List.rel_of_pairwise_cons h ha)
    · by_cases h2 : x = y
      · rw [insertYear, if_neg h1, if_pos h2]
        exact h
      · rw [insertYear, if_neg h1, if_neg h2]
        have hyx : y < x := by omega
        refine List.Pairwise.cons ?_ (ih (List.Pairwise.sublist (List.sublist_cons_self y ys) h))
        intro a ha
        rcases mem_insertYear.mp ha with rfl | ha
        · exact hyx
        · exact List.rel_of_pairwise_cons h ha

theorem pairwise_sortedSet (l : List Int) :
    (sortedSet l).Pairwise (· < ·) := by
  induction l with
  | nil => exact List.Pairwise.nil
  | cons a t ih => exact pairwise_insertYear ih

theorem mem_sortedSet {a : Int} (l : List Int) :
    a ∈ sortedSet l ↔ a ∈ l := by
  induction l with
  | nil => simp [sortedSet]
  | cons b t ih =>
    show a ∈ insertYear b (sortedSet t) ↔ _
    rw [mem_insertYear, ih]
    simp

/-- C9: whatever mix of positional year arguments and repeated `--year`
options is given, in any order and with any duplicates, the list of years
`create_report` processes is strictly increasing (hence duplicate-free)
and consists exactly of the supplied years; when none is supplied it is
exactly the one-element list holding the current calendar year. -/
theorem combineYears_spec (positional flags : List Int) (nowYear : Int) :
    (combineYears positional flags nowYear).Pairwise (· < ·) ∧
    combineYears [] [] nowYear = [nowYear] ∧
    (∀ y, y ∈ combineYears positional flags nowYear ↔
      y ∈ (if (positional ++ flags).isEmpty then [nowYear]
           else positional ++ flags)) :=
  ⟨pairwise_sortedSet _, rfl, fun _ => mem_sortedSet _⟩
